import Mathlib

/-
  Verification development for the atgen test generator
  (src/lib/generator.go).  The generator's data model and the pure logic of
  its functions are embedded shallowly below; Go slices become Lean lists, a
  Go nil slice where the code distinguishes nil from empty becomes `none`,
  and Go maps keyed by strings become association lists or functions.
-/

set_option maxRecDepth 8000

namespace Atgen

/-- RouterFuncName (generator.go line 24): the sentinel function name replaced
    by the router rewrite. -/
def RouterFuncName : String := "AtgenRouterFunc"

/-- Modelled from the spec: the request content type, the closed 3-way
    enumeration ContentType of spec section 3 (the Go type declaration lives
    outside the provided generator source). -/
inductive ReqType where
  | JSON
  | FORM
  | RAW
deriving DecidableEq

/-- Modelled from the spec: the request descriptor of spec section 3
    (ContentType, Body, Params, Headers).  Mapping values are modelled as
    strings. -/
structure Req where
  typ : ReqType
  body : String
  params : List (String × String)
  headers : List (String × String)
deriving DecidableEq

/-- Modelled from the spec: the response descriptor of spec section 3
    (Status, Headers, Params, ParamsArray). -/
structure Res where
  status : Int
  headers : List (String × String)
  params : List (String × String)
  paramsArray : List (List (String × String))
deriving DecidableEq

/-- Modelled from the spec: a single Test of spec section 3.  `apiVersions`
    is an `Option` because filterTest (generator.go line 283) distinguishes a
    nil slice from an empty one. -/
structure Test where
  method : String
  path : String
  register : String
  req : Req
  res : Res
  vars : List (String × String)
  apiVersions : Option (List String)
deriving DecidableEq

/-- Modelled from the spec: a SubtestGroup of spec section 3.  `apiVersions`
    is an `Option` because filterTests (generator.go lines 256-260)
    distinguishes a nil slice from an empty one. -/
structure Subtest where
  name : String
  apiVersions : Option (List String)
  tests : List Test
deriving DecidableEq

/-- Modelled from the spec: a TestItem, the tagged variant of spec section 3
    (a Go interface value that is either a Test or a Subtests slice). -/
inductive TestItem where
  | test (t : Test)
  | subtests (s : List Subtest)
deriving DecidableEq

/-- Modelled from the spec: the router reference (symbolic name plus declaring
    package path). -/
structure RouterFunc where
  name : String
  packagePath : String
deriving DecidableEq

/-- Modelled from the spec: a TestFunction of spec section 3.  The function's
    own APIVersions slice is never nil-tested by the generator, so it is a
    plain list. -/
structure TestFunc where
  name : String
  vars : List (String × String)
  apiVersions : List String
  routerFuncName : String
  routerFunc : RouterFunc
  tests : List TestItem
deriving DecidableEq

/-- contains (generator.go lines 290-297): linear membership test. -/
def contains (s : List String) (e : String) : Bool :=
  s.any (fun v => e = v)

/-- Character-list prefix test (used to model the strings package helpers). -/
def chPref : List Char → List Char → Bool
  | [], _ => true
  | _ :: _, [] => false
  | x :: xs, y :: ys => x = y && chPref xs ys

/-- strings.Replace with count 1, replacing only the first occurrence: models
    the call in filterTest (generator.go line 278). -/
def replOnce (old new : List Char) : List Char → List Char
  | [] => []
  | c :: rest =>
      if chPref old (c :: rest) then new ++ (c :: rest).drop old.length
      else c :: replOnce old new rest

/-- String wrapper for `replOnce`. -/
def replOnceStr (s old new : String) : String :=
  ⟨replOnce old.data new.data s.data⟩

/-- Substring test on character lists (models strings.Contains). -/
def chInfix (needle : List Char) : List Char → Bool
  | [] => chPref needle []
  | c :: rest => chPref needle (c :: rest) || chInfix needle rest

/-- Substring test on strings (models strings.Contains/HasPrefix combinators
    where used). -/
def strInfix (hay needle : String) : Bool :=
  chInfix needle.data hay.data

/-- filterTest (generator.go lines 276-288): replace the first occurrence of
    the version placeholder in the path, then retain the test when the version
    occurs in its own APIVersions, or, when its APIVersions slice is nil, when
    the version occurs in the enclosing function's APIVersions. -/
def filterTest (test : Test) (versions : List String) (version : String) : Option Test :=
  let apiVersions := test.apiVersions
  let test := { test with path := replOnceStr test.path "\x7bapiVersion\x7d" version }
  if contains (apiVersions.getD []) version then some test
  else if apiVersions.isNone && contains versions version then some test
  else none

/-- filterTests (generator.go lines 238-274): the filtered copy of a test
    function for one version.  A retained SubtestGroup keeps only its matching
    tests; a skipped group is dropped, but the (possibly empty) Subtests item
    itself is always appended, mirroring line 270. -/
def filterTests (testFunc : TestFunc) (version : String) : TestFunc :=
  let tests := testFunc.tests.foldl (fun acc t =>
    match t with
    | .test v =>
        match filterTest v testFunc.apiVersions version with
        | some tst => acc ++ [TestItem.test tst]
        | none => acc
    | .subtests v =>
        let subtests := v.foldl (fun subAcc s =>
          if s.apiVersions.isSome && !(contains (s.apiVersions.getD []) version) then subAcc
          else if s.apiVersions.isNone && !(contains testFunc.apiVersions version) then subAcc
          else
            let kept := s.tests.foldl (fun ts t2 =>
              match filterTest t2 testFunc.apiVersions version with
              | some tst => ts ++ [tst]
              | none => ts) []
            subAcc ++ [{ name := s.name, apiVersions := none, tests := kept : Subtest }]) []
        acc ++ [TestItem.subtests subtests]) []
  { name := testFunc.name, vars := testFunc.vars, apiVersions := [],
    routerFuncName := testFunc.routerFuncName, routerFunc := testFunc.routerFunc,
    tests := tests }

/-- The version-collection loop of getVersions (generator.go lines 300-307):
    the function's own APIVersions followed by the APIVersions of every
    top-level Test item; the switch has no Subtests case, so versions of tests
    nested inside subtest groups are not collected. -/
def collectVersions (testFunc : TestFunc) : List String :=
  testFunc.tests.foldl (fun acc t =>
    match t with
    | .test v => acc ++ v.apiVersions.getD []
    | .subtests _ => acc) testFunc.apiVersions

/-- The dedupe loop of getVersions (generator.go lines 309-317); the Go
    map[string]bool `m` is modelled by membership in the seen list, and the
    first occurrence of each version is kept. -/
def dedupeAux : List String → List String → List String
  | _, [] => []
  | seen, v :: rest =>
      if contains seen v then dedupeAux seen rest
      else v :: dedupeAux (seen ++ [v]) rest

/-- getVersions (generator.go lines 299-320). -/
def getVersions (testFunc : TestFunc) : List String :=
  dedupeAux [] (collectVersions testFunc)

/-- One append step of filterTestFuncs (generator.go line 232):
    tfuncs[version] = append(tfuncs[version], filterTests(testFunc, version)). -/
def planAdd (tf : TestFunc) (version : String) (m : String → List TestFunc) :
    String → List TestFunc :=
  fun q => if q = version then m q ++ [filterTests tf version] else m q

/-- The inner loop of filterTestFuncs (generator.go lines 230-233): one append
    per version in the function's working set. -/
def planFunc (m : String → List TestFunc) (tf : TestFunc) : String → List TestFunc :=
  (getVersions tf).foldl (fun m2 version => planAdd tf version m2) m

/-- filterTestFuncs (generator.go lines 227-236): the per-version plan map,
    modelled as a function from version to the list of filtered test
    functions appended for it. -/
def filterTestFuncs (testFuncs : List TestFunc) : String → List TestFunc :=
  testFuncs.foldl planFunc (fun _ => [])

/-- First-seen-order deduplication, written from the spec's wording
    ("deduplicated keeping first-seen order") for comparison with the
    generator's dedupe loop. -/
def specDedupFirst : List String → List String
  | [] => []
  | x :: xs => x :: specDedupFirst (xs.filter (fun y => y ≠ x))
termination_by l => l.length
decreasing_by
  simp only [List.length_cons]
  exact Nat.lt_succ_of_le (List.length_filter_le _ _)

/-- The working set claimed by C1, written from the spec's wording: the union
    of the function's own APIVersions and of every nested Test's APIVersions,
    including Tests nested inside SubtestGroups, deduplicated in first-seen
    order. -/
def specAllVersions (testFunc : TestFunc) : List String :=
  specDedupFirst (testFunc.apiVersions ++ testFunc.tests.flatMap (fun t =>
    match t with
    | .test v => v.apiVersions.getD []
    | .subtests s =>
        s.flatMap (fun st => st.tests.flatMap (fun t2 => t2.apiVersions.getD []))))

/-- The version sources the generator actually consults: the function's own
    APIVersions and the APIVersions of top-level Test items only. -/
def topLevelVersions (testFunc : TestFunc) : List String :=
  testFunc.tests.flatMap (fun t =>
    match t with
    | .test v => v.apiVersions.getD []
    | .subtests _ => [])

/-- A minimal well-formed request used by concrete examples. -/
def reqJSON : Req := { typ := .JSON, body := "", params := [], headers := [] }

/-- A minimal response used by concrete examples. -/
def res200 : Res := { status := 200, headers := [], params := [], paramsArray := [] }

/-- Concrete test scoped to version v9, used to exercise getVersions. -/
def c1Test : Test :=
  { method := "get", path := "/p", register := "", req := reqJSON, res := res200,
    vars := [], apiVersions := some ["v9"] }

/-- Concrete function whose only test sits inside a subtest group. -/
def c1Func : TestFunc :=
  { name := "F", vars := [], apiVersions := [], routerFuncName := "",
    routerFunc := { name := "R", packagePath := "p" },
    tests := [ .subtests [ { name := "g", apiVersions := none, tests := [c1Test] } ] ] }

/-- Concrete test scoped to v2 only, inside a function scoped to v1. -/
def c7Test : Test := { c1Test with apiVersions := some ["v2"] }

/-- Concrete function whose working set contains v1 but whose only test is
    filtered away for v1. -/
def c7Func : TestFunc :=
  { name := "F7", vars := [], apiVersions := ["v1"], routerFuncName := "",
    routerFunc := { name := "R", packagePath := "p" }, tests := [.test c7Test] }

/-- Concrete test whose path holds the version placeholder twice. -/
def c8Test : Test :=
  { method := "get", path := "/a/\x7bapiVersion\x7d/\x7bapiVersion\x7d",
    register := "", req := reqJSON, res := res200, vars := [],
    apiVersions := some ["v1"] }

/-- The copy of c8Test that filtering for v1 retains. -/
def c8KeptTest : Test := { c8Test with path := "/a/v1/\x7bapiVersion\x7d" }

/-- Go strings.TrimPrefix with a fixed literal: removes `lit` from the front
    when present, on character lists. -/
def chDropLead (lit s : List Char) : List Char :=
  if chPref lit s then s.drop lit.length else s

/-- Go strings.TrimSuffix with a fixed literal: removes `lit` from the end
    when present, on character lists. -/
def chDropTrail (lit s : List Char) : List Char :=
  if chPref lit.reverse s.reverse then (s.reverse.drop lit.length).reverse else s

/-- strings.Split on a one-character separator. -/
def splitOnCh (sep : Char) : List Char → List (List Char)
  | [] => [[]]
  | c :: rest =>
      if c = sep then [] :: splitOnCh sep rest
      else
        match splitOnCh sep rest with
        | s :: ss => (c :: s) :: ss
        | [] => [[c]]

/-- The character class matched by the regular expression's single \d. -/
def isDig (c : Char) : Bool := '0' ≤ c && c ≤ '9'

/-- Backtracking matcher for the regular expression (.+)\[(\d)\] used by
    replaceRegister (generator.go line 497), anchored at the current start
    position.  `name` holds the characters the greedy `.+` has consumed so
    far; longer captures are tried first, mirroring the greedy quantifier, and
    a match needs a nonempty capture followed by '[', exactly one digit and
    ']'.  (The model assumes the input holds no newline, which is true of
    register paths.)  `brTry` is the bracket attempt made at the current
    character once no longer capture matches. -/
def brTry (name : List Char) (c : Char) : List Char → Option (List Char × Char × List Char)
  | d :: b :: tail =>
      if c = '[' then
        if isDig d && b = ']' && name ≠ [] then some (name, d, tail) else none
      else none
  | _ => none

def reMatch (name : List Char) : List Char → Option (List Char × Char × List Char)
  | [] => none
  | c :: rest =>
      match reMatch (name ++ [c]) rest with
      | some r => some r
      | none => brTry name c rest

/-- regexp.ReplaceAllString for the pattern (.+)\[(\d)\] and the template
    ["$1"].([]interface\x7b\x7d)[$2] (generator.go lines 497-498): repeatedly
    replace the leftmost (greedy) match and continue scanning after it; on no
    match at the current position shift one character.  Explicit fuel bounds
    the scan; the input length suffices. -/
def reReplAll : Nat → List Char → List Char
  | 0, s => s
  | _ + 1, [] => []
  | fuel + 1, c :: rest =>
      match reMatch [] (c :: rest) with
      | some (name, d, rest2) =>
          "[\"".data ++ name ++ "\"].([]interface\x7b\x7d)[".data ++ [d] ++ "]".data
            ++ reReplAll fuel rest2
      | none => c :: reReplAll fuel rest

/-- The segment loop of replaceRegister (generator.go lines 492-502), carrying
    the loop index: from the second segment on, a map assertion is emitted
    first; a segment containing '[' goes through the regex replacement, a
    plain segment is emitted as a quoted map key. -/
def regSegLoop (i : Nat) : List (List Char) → List Char
  | [] => []
  | seg :: rest =>
      (if i > 0 then ".(map[string]interface\x7b\x7d)".data else []) ++
      (if chInfix "[".data seg then reReplAll seg.length seg
       else "[\"".data ++ seg ++ "\"]".data) ++
      regSegLoop (i + 1) rest

/-- replaceRegister (generator.go lines 487-505). -/
def replaceRegister (str : String) : String :=
  let s := chDropLead "\"$atgenRegister[".data str.data
  let s2 := chDropTrail "]\"".data s
  let t := splitOnCh '.' s2
  ⟨"atgenRegister".data ++ regSegLoop 0 t ++ ".(string)".data⟩

/-- The ${name:type} arm of the second rewrite pass of rewriteTestNode
    (generator.go lines 421-425): strip the delimiters, split on the colon and
    emit a variable lookup with a type assertion.  (With no colon present the
    Go index t[1] would panic; the model returns empty type text, a case no
    claim touches.) -/
def varLookupText (v : String) : String :=
  let s := chDropLead "\"$\x7b".data v.data
  let s2 := chDropTrail "\x7d\"".data s
  let t := splitOnCh ':' s2
  ⟨"atgenVars[\"".data ++ t.getD 0 [] ++ "\"].(".data ++ t.getD 1 [] ++ ")".data⟩

/-- The string-literal dispatch of the second rewrite pass of rewriteTestNode
    (generator.go lines 418-431): literals opening with the variable
    interpolation marker are rewritten to variable lookups, literals opening
    with the register marker go through replaceRegister, all others are kept. -/
def pass2Lit (v : String) : String :=
  if chPref "\"$\x7b".data v.data then varLookupText v
  else if chPref "\"$atgenRegister[".data v.data then replaceRegister v
  else v

/-- A register-path segment of the amended C3 grammar: an identifier
    optionally followed by one single-digit bracketed index. -/
structure RSeg where
  name : List Char
  idx : Option Nat
deriving DecidableEq

/-- Well-formedness of a segment: nonempty identifier free of '.', '[' and
    newline, and a single-digit index when one is present. -/
def wfSeg (s : RSeg) : Bool :=
  s.name ≠ [] && s.name.all (fun c => c ≠ '.' && c ≠ '[' && c ≠ '\n') &&
    (match s.idx with
     | some d => d < 10
     | none => true)

/-- Textual rendering of one segment of a register path. -/
def renderSeg (s : RSeg) : List Char :=
  s.name ++ (match s.idx with
    | some d => ['[', Nat.digitChar d, ']']
    | none => [])

/-- Textual rendering of a whole register path (the text standing between the
    brackets of the interpolation literal). -/
def renderPath (first : RSeg) (rest : List RSeg) : List Char :=
  renderSeg first ++ rest.flatMap (fun s => '.' :: renderSeg s)

/-- The full register string literal as it stands in the cloned test node. -/
def renderRegisterLit (first : RSeg) (rest : List RSeg) : String :=
  ⟨"\"$atgenRegister[".data ++ renderPath first rest ++ "]\"".data⟩

/-- The sequence-index part of the lookup chain claimed by C3, written from
    the spec's wording. -/
def specIdxPart : Option Nat → List Char
  | none => []
  | some d => ".([]interface\x7b\x7d)[".data ++ [Nat.digitChar d] ++ "]".data

/-- The first chain link claimed by C3: a string-keyed lookup straight into
    the register store, then the optional sequence index. -/
def specChainSeg0 (s : RSeg) : List Char :=
  "[\"".data ++ s.name ++ "\"]".data ++ specIdxPart s.idx

/-- A later chain link claimed by C3: a map assertion, a string-keyed lookup,
    then the optional sequence index. -/
def specChainSegN (s : RSeg) : List Char :=
  ".(map[string]interface\x7b\x7d)[\"".data ++ s.name ++ "\"]".data ++ specIdxPart s.idx

/-- The left-to-right lookup chain claimed by C3, written from the spec's
    wording: lookups into atgenRegister, a map lookup per dotted segment, a
    sequence index per bracketed segment, terminating in a string assertion. -/
def specChain (first : RSeg) (rest : List RSeg) : String :=
  ⟨"atgenRegister".data ++ specChainSeg0 first ++ rest.flatMap specChainSegN
    ++ ".(string)".data⟩

/-- First segment of the spec's worked example a.b[0].c. -/
def c3First : RSeg := ⟨['a'], none⟩

/-- Later segments of the spec's worked example a.b[0].c. -/
def c3Rest : List RSeg := [⟨['b'], some 0⟩, ⟨['c'], none⟩]

/-- The syntax-tree shapes the generator's rewriters inspect, a restriction of
    go/ast to the node kinds rewriteTestNode and rewriteTestFuncNode touch:
    basic literals, identifiers, selector expressions, call expressions,
    assignments, composite literals (their type subtree omitted — it only
    perturbs the threaded identifier after a composite's own rewrite has been
    decided), statement blocks, expression statements, function declarations
    and the opaque results of parser.ParseExpr on generated text. -/
inductive Node where
  | basicLit (value : String)
  | ident (name : String)
  | selector (pkg fld : String)
  | callExpr (fn : Node) (args : List Node)
  | assignStmt (lhs rhs : List Node)
  | compositeLit (elts : List Node)
  | blockStmt (stmts : List Node)
  | exprStmt (e : Node)
  | funcDecl (name : String) (body : Node)
  | parsedExpr (src : String)

/-- strings.ToUpper on one character, restricted to ASCII (methods are plain
    ASCII words). -/
def goUpperChar (c : Char) : Char :=
  if 'a' ≤ c && c ≤ 'z' then Char.ofNat (c.toNat - 32) else c

/-- strings.ToUpper as applied to the test method (generator.go line 367). -/
def goUpper (s : String) : String := ⟨s.data.map goUpperChar⟩

/-- One character of Go's %#v quoting of a string (strconv.Quote escapes; the
    common escapes suffice for request bodies). -/
def goQuoteChar (c : Char) : List Char :=
  if c = '"' then ['\\', '"']
  else if c = '\\' then ['\\', '\\']
  else if c = '\n' then ['\\', 'n']
  else if c = '\t' then ['\\', 't']
  else [c]

/-- Go's %#v rendering of a string value (a quoted Go string literal). -/
def goQuote (s : String) : String :=
  ⟨'"' :: (s.data.flatMap goQuoteChar ++ ['"'])⟩

/-- Insertion into a key-sorted association list (fmt prints Go maps in sorted
    key order). -/
def insSorted (p : String × String) : List (String × String) → List (String × String)
  | [] => [p]
  | q :: rest => if p.1 ≤ q.1 then p :: q :: rest else q :: insSorted p rest

/-- Key-sorting of an association list, for map rendering. -/
def sortByKey (l : List (String × String)) : List (String × String) :=
  l.foldr insSorted []

/-- The comma-joined entries of a rendered Go map literal. -/
def goMapEntries : List (String × String) → String
  | [] => ""
  | [p] => goQuote p.1 ++ ":" ++ goQuote p.2
  | p :: rest => goQuote p.1 ++ ":" ++ goQuote p.2 ++ ", " ++ goMapEntries rest

/-- Go's %#v rendering of a map[string]string value. -/
def goSharpVMapS (l : List (String × String)) : String :=
  "map[string]string\x7b" ++ goMapEntries (sortByKey l) ++ "\x7d"

/-- Go's %#v rendering of a map[string]interface\x7b\x7d value (entries
    modelled as strings). -/
def goSharpVMapI (l : List (String × String)) : String :=
  "map[string]interface \x7b\x7d\x7b" ++ goMapEntries (sortByKey l) ++ "\x7d"

/-- Go's %#v rendering of a []map[string]interface\x7b\x7d value. -/
def goSharpVArray (l : List (List (String × String))) : String :=
  "[]map[string]interface \x7b\x7d\x7b"
    ++ String.intercalate ", " (l.map goSharpVMapI) ++ "\x7d"

/-- The JSON body expression source (generator.go line 439). -/
def jsonBodySrc : String := "json.Marshal(atgenReqParams)"

/-- The FORM body expression source (generator.go lines 442-448): an inline
    function URL-encoding every request param as a key/value pair. -/
def formBodySrc : String :=
  "func () ([]byte, error)\x7b\n\t\t\tbody := url.Values\x7b\x7d\n\t\t\tfor k, v := range atgenReqParams \x7b\n\t\t\t\tbody.Add(k, fmt.Sprintf(\"%v\", v))\n\t\t\t\x7d\n\t\t\treturn []byte(body.Encode()),nil\n\t\t\t\x7d()"

/-- The fixed text of the RAW body expression standing before the quoted Body
    value (generator.go lines 453-460). -/
def rawBodyPre : String :=
  "func() (body []byte, err error) \x7b\n\t\t\ttmpl, err := template.New(\"body\").Parse(\"\x7b\x7b.body\x7d\x7d\")\n\t\t\tif err != nil \x7b\n\t\t\t\treturn\n\t\t\t\x7d\n\t\t\tif tmpl != nil \x7b\n\t\t\t\tbuf := bytes.NewBuffer([]byte\x7b\x7d)\n\t\t\t\terr = tmpl.Execute(buf, map[string]string\x7b\"body\": "

/-- The fixed text of the RAW body expression standing after the quoted Body
    value (generator.go lines 460-467). -/
def rawBodyPost : String :=
  "\x7d)\n\t\t\t\tif err != nil \x7b\n\t\t\t\t\treturn\n\t\t\t\t\x7d\n\t\t\t\tbody = buf.Bytes()\n\t\t\t\x7d\n\t\t\treturn\n\t\t\x7d()"

/-- generateRequestBody (generator.go lines 436-472), at the source-text level
    (the Go code hands these strings to parser.ParseExpr): JSON serializes the
    params mapping, FORM URL-encodes every param in an inline function, RAW
    renders the literal Body through a one-field text template. -/
def generateRequestBody (req : Req) : Option String :=
  match req.typ with
  | ReqType.JSON => some jsonBodySrc
  | ReqType.FORM => some formBodySrc
  | ReqType.RAW => some (rawBodyPre ++ goQuote req.body ++ rawBodyPost)

/-- fmt.Sprintf %d on the status value. -/
def goIntStr (n : Int) : String := toString n

/-- The sentinel-literal switch of rewriteTestNode's first pass
    (generator.go lines 364-374). -/
def rewriteLitValue (t : Test) (v : String) : String :=
  if v = "\"AtgenMethod\"" then "\"" ++ goUpper t.method ++ "\""
  else if v = "\"AtgenPath\"" then "\"" ++ t.path ++ "\""
  else if v = "\"atgenStatus\"" then goIntStr t.res.status
  else if v = "\"atgenRegisterKey\"" then "\"" ++ t.register ++ "\""
  else v

/-- The composite-literal switch of rewriteTestNode's first pass
    (generator.go lines 389-411), keyed by the identifier seen immediately
    before the composite; the params slot is only replaced for non-RAW
    requests. -/
def replacementFor (t : Test) (id : String) : Option String :=
  if id = "atgenReqHeaders" then some (goSharpVMapS t.req.headers)
  else if id = "atgenReqParams" then
    (if t.req.typ ≠ ReqType.RAW then some (goSharpVMapI t.req.params) else none)
  else if id = "atgenResHeaders" then some (goSharpVMapS t.res.headers)
  else if id = "atgenResParams" then some (goSharpVMapI t.res.params)
  else if id = "atgenResParamsArray" then some (goSharpVArray t.res.paramsArray)
  else if id = "atgenTestVars" then some (goSharpVMapI t.vars)
  else none

/-- Whether a call's Fun field is the request-body sentinel identifier
    (generator.go lines 378-379). -/
def isBodyCall : Node → Bool
  | Node.ident nm => nm = "AtgenRequestBody"
  | _ => false

/-- Whether an assignment's first left-hand side is the params identifier
    (generator.go line 386). -/
def headIsParams (lhs : List Node) : Bool :=
  match lhs.headD (Node.basicLit "") with
  | Node.ident nm => nm = "atgenReqParams"
  | _ => false

mutual
/-- The first rewrite pass of rewriteTestNode (generator.go lines 362-416),
    threading the last identifier seen by the pre-order traversal (the Go
    variable `ident`): literals go through the sentinel switch, identifiers
    set the state, the body-sentinel call is replaced by the synthesized
    request-body expression, the params assignment is deleted for RAW
    requests (`none` marks a node deleted from its slice), and composites are
    replaced according to the preceding identifier, which is then cleared.
    Children of a replaced node are still traversed for the state thread, as
    astutil.Apply walks the node captured before the replacement. -/
def rw1 (t : Test) : String → Node → String × Option Node
  | id, Node.basicLit v => (id, some (Node.basicLit (rewriteLitValue t v)))
  | _, Node.ident nm => (nm, some (Node.ident nm))
  | _, Node.selector p f => (f, some (Node.selector p f))
  | id, Node.parsedExpr s => (id, some (Node.parsedExpr s))
  | id, Node.callExpr fn args =>
      if isBodyCall fn && (generateRequestBody t.req).isSome then
        let r1 := rw1 t id fn
        let r2 := rw1List t r1.1 args
        (r2.1, some (Node.parsedExpr ((generateRequestBody t.req).getD "")))
      else
        let r1 := rw1 t id fn
        let r2 := rw1List t r1.1 args
        (r2.1, some (Node.callExpr (r1.2.getD fn) r2.2))
  | id, Node.assignStmt lhs rhs =>
      let del := decide (t.req.typ = ReqType.RAW) && headIsParams lhs
      let r1 := rw1List t id lhs
      let r2 := rw1List t r1.1 rhs
      (r2.1, if del then none else some (Node.assignStmt r1.2 r2.2))
  | id, Node.compositeLit elts =>
      match replacementFor t id with
      | some src =>
          let r := rw1List t "" elts
          (r.1, some (Node.parsedExpr src))
      | none =>
          let r := rw1List t "" elts
          (r.1, some (Node.compositeLit r.2))
  | id, Node.blockStmt stmts =>
      let r := rw1List t id stmts
      (r.1, some (Node.blockStmt r.2))
  | id, Node.exprStmt e =>
      let r := rw1 t id e
      (r.1, some (Node.exprStmt (r.2.getD e)))
  | id, Node.funcDecl nm body =>
      let r := rw1 t id body
      (r.1, some (Node.funcDecl nm (r.2.getD body)))

def rw1List (t : Test) : String → List Node → String × List Node
  | id, [] => (id, [])
  | id, n :: rest =>
      let r := rw1 t id n
      let rr := rw1List t r.1 rest
      (rr.1, match r.2 with
        | some m => m :: rr.2
        | none => rr.2)
end

mutual
/-- The second rewrite pass of rewriteTestNode (generator.go lines 418-431):
    every string literal goes through the interpolation dispatch. -/
def rw2 : Node → Node
  | Node.basicLit v => Node.basicLit (pass2Lit v)
  | Node.ident nm => Node.ident nm
  | Node.selector p f => Node.selector p f
  | Node.parsedExpr s => Node.parsedExpr s
  | Node.callExpr fn args => Node.callExpr (rw2 fn) (rw2List args)
  | Node.assignStmt lhs rhs => Node.assignStmt (rw2List lhs) (rw2List rhs)
  | Node.compositeLit elts => Node.compositeLit (rw2List elts)
  | Node.blockStmt stmts => Node.blockStmt (rw2List stmts)
  | Node.exprStmt e => Node.exprStmt (rw2 e)
  | Node.funcDecl nm body => Node.funcDecl nm (rw2 body)

def rw2List : List Node → List Node
  | [] => []
  | n :: rest => rw2 n :: rw2List rest
end

/-- rewriteTestNode (generator.go lines 359-434): the first pass with empty
    initial identifier state, then the literal-interpolation pass.  (In Go a
    deleted root would panic inside astutil — Delete on a non-slice cursor;
    the model keeps the root, a case no template produces.) -/
def rewriteTestNode (t : Test) (n : Node) : Node :=
  rw2 ((rw1 t "" n).2.getD n)

mutual
/-- The number of params assignments (an assignment whose first left-hand
    side is the identifier atgenReqParams) in a tree. -/
def countPA : Node → Nat
  | Node.assignStmt lhs rhs =>
      (if headIsParams lhs then 1 else 0) + countPAList lhs + countPAList rhs
  | Node.callExpr fn args => countPA fn + countPAList args
  | Node.compositeLit elts => countPAList elts
  | Node.blockStmt stmts => countPAList stmts
  | Node.exprStmt e => countPA e
  | Node.funcDecl _ body => countPA body
  | _ => 0

def countPAList : List Node → Nat
  | [] => 0
  | n :: rest => countPA n + countPAList rest
end

/-- Whether a node is an assignment statement. -/
def isAssign : Node → Bool
  | Node.assignStmt _ _ => true
  | _ => false

mutual
/-- Shape invariant of real go/ast trees: assignment statements are
    statements, so they never stand in the expression positions of a call's
    Fun field, an expression statement, or a function body, and the left-hand
    sides of an assignment are expressions. -/
def wfNode : Node → Bool
  | Node.basicLit _ => true
  | Node.ident _ => true
  | Node.selector _ _ => true
  | Node.parsedExpr _ => true
  | Node.callExpr fn args => !isAssign fn && wfNode fn && wfList args
  | Node.assignStmt lhs rhs => lhs.all (fun x => !isAssign x) && wfList lhs && wfList rhs
  | Node.compositeLit elts => wfList elts
  | Node.blockStmt stmts => wfList stmts
  | Node.exprStmt e => !isAssign e && wfNode e
  | Node.funcDecl _ body => !isAssign body && wfNode body

def wfList : List Node → Bool
  | [] => true
  | n :: rest => wfNode n && wfList rest
end

/-- A loaded package as rewriteTestFuncNode consults it: its default name and
    its import path. -/
structure PackageInfo where
  name : String
  pkgPath : String
deriving DecidableEq

/-- The package lookup loop of rewriteTestFuncNode (generator.go lines
    342-347): no break, so the last match wins; none when no loaded package
    has the router's path. -/
def findPkg (pkgs : List PackageInfo) (path : String) : Option PackageInfo :=
  pkgs.foldl (fun acc p => if p.pkgPath = path then some p else acc) none

/-- The replacement for the router sentinel's Fun field (generator.go lines
    338-352): a direct identifier when the router lives in the output
    package, otherwise a package-qualified selector through the resolved
    package; `none` models the nil-pointer dereference of pkg.Name when no
    loaded package matches — the function has no error return. -/
def routerReplacement (tf : TestFunc) (outputPath : String) (pkgs : List PackageInfo) :
    Option Node :=
  if tf.routerFunc.packagePath = outputPath then some (Node.ident tf.routerFunc.name)
  else
    match findPkg pkgs tf.routerFunc.packagePath with
    | some pkg => some (Node.selector pkg.name tf.routerFunc.name)
    | none => none

mutual
/-- The traversal of rewriteTestFuncNode (generator.go lines 334-356):
    every call whose Fun is the router sentinel identifier gets its Fun
    replaced; `none` propagates the nil-dereference panic. -/
def rwRouter (tf : TestFunc) (outputPath : String) (pkgs : List PackageInfo) :
    Node → Option Node
  | Node.basicLit v => some (Node.basicLit v)
  | Node.ident nm => some (Node.ident nm)
  | Node.selector p f => some (Node.selector p f)
  | Node.parsedExpr s => some (Node.parsedExpr s)
  | Node.callExpr (Node.ident nm) args =>
      if nm = RouterFuncName then
        (routerReplacement tf outputPath pkgs).bind (fun fn2 =>
          (rwRouterList tf outputPath pkgs args).map (fun a2 => Node.callExpr fn2 a2))
      else
        (rwRouterList tf outputPath pkgs args).map (fun a2 => Node.callExpr (Node.ident nm) a2)
  | Node.callExpr fn args =>
      (rwRouter tf outputPath pkgs fn).bind (fun fn2 =>
        (rwRouterList tf outputPath pkgs args).map (fun a2 => Node.callExpr fn2 a2))
  | Node.assignStmt lhs rhs =>
      (rwRouterList tf outputPath pkgs lhs).bind (fun l2 =>
        (rwRouterList tf outputPath pkgs rhs).map (fun r2 => Node.assignStmt l2 r2))
  | Node.compositeLit elts =>
      (rwRouterList tf outputPath pkgs elts).map Node.compositeLit
  | Node.blockStmt stmts =>
      (rwRouterList tf outputPath pkgs stmts).map Node.blockStmt
  | Node.exprStmt e =>
      (rwRouter tf outputPath pkgs e).map Node.exprStmt
  | Node.funcDecl nm body =>
      (rwRouter tf outputPath pkgs body).map (Node.funcDecl nm)

def rwRouterList (tf : TestFunc) (outputPath : String) (pkgs : List PackageInfo) :
    List Node → Option (List Node)
  | [] => some []
  | n :: rest =>
      (rwRouter tf outputPath pkgs n).bind (fun n2 =>
        (rwRouterList tf outputPath pkgs rest).map (fun r2 => n2 :: r2))
end

/-- rewriteTestFuncNode (generator.go lines 332-357): the cloned skeleton is
    asserted to be a function declaration (any other node makes the Go type
    assertion panic, modelled `none`), renamed to the test function's name,
    and its router-sentinel calls rewritten. -/
def rewriteTestFuncNode (n : Node) (tf : TestFunc) (outputPath : String)
    (pkgs : List PackageInfo) : Option Node :=
  match n with
  | Node.funcDecl _ body => rwRouter tf outputPath pkgs (Node.funcDecl tf.name body)
  | _ => none

/-- The Go error values generateTestFuncs can actually return
    (generator.go lines 65-208): a template parse error, a failure of
    filepath.Abs, a failure of the package resolver, or a formatting error.
    No configuration- or assembly-classified error value exists in the
    source. -/
inductive GoErr where
  | parseError
  | absError
  | pkgNameError
  | formatError
deriving DecidableEq

/-- Modelled from the spec: the error taxonomy of spec section 7
    (ConfigError, AssemblyError, RenderError).  The source defines no such
    classifications; these values exist only to state the spec's claims. -/
inductive SpecErr where
  | configError
  | assemblyError
  | renderError
deriving DecidableEq

/-- How a run of a generator function ends: a returned value, a returned Go
    error, or an abnormal abort (runtime panic). -/
inductive RunResult (α : Type) where
  | ok (a : α)
  | errReturned (e : GoErr)
  | panicked
deriving DecidableEq

/-- The marker scan of generateTestFuncs (generator.go lines 78-89): the
    node whose comment text contains the marker substring.  Go iterates the
    comment map in unspecified order; a well-formed template marks each
    region once, making the result order-independent, and the model takes
    the last match in list order. -/
def findMarked (marker : String) (tmpl : List (String × Node)) : Option Node :=
  tmpl.foldl (fun acc p => if strInfix p.1 marker then some p.2 else acc) none

/-- The control flow of generateTestFuncs (generator.go lines 65-208) at the
    outcome level, for a template given as its comment-annotated nodes.  The
    package-resolution steps (lines 103-111) are abstracted as `pkgNameRes`.
    A missing Test marker panics first: the cleanup traversal at lines 91-101
    compares every cursor, including the nil-field cursors astutil.Apply
    visits, against the nil testNode and calls Delete on the match.  With the
    markers intact, package-resolution errors are returned; afterwards a
    missing TestFunc marker panics (util.DuplicateNode or the deletion
    traversal dereferences the nil node), a non-function marked node panics in
    rewriteTestFuncNode's type assertion, an unresolved router package panics
    there too, and a subtest group without a Subtest marker panics in
    util.DuplicateNode.  rewriteTestNode's error result is always nil (its
    err variable is never assigned), and formatting of a well-formed tree is
    assumed to succeed.  On success one function node per planned TestFunc is
    emitted, in order. -/
def generateTestFuncsOutcome (tmpl : List (String × Node)) (tfs : List TestFunc)
    (pkgNameRes : Except GoErr String) (pkgs : List PackageInfo) :
    RunResult (List String) :=
  let funcNodeOpt := findMarked "Atgen TestFunc block" tmpl
  let testNodeOpt := findMarked "Atgen Test block" tmpl
  let subNodeOpt := findMarked "Atgen Subtest block" tmpl
  if testNodeOpt.isNone then RunResult.panicked
  else
    match pkgNameRes with
    | Except.error e => RunResult.errReturned e
    | Except.ok outputPath =>
        match funcNodeOpt with
        | none => RunResult.panicked
        | some fnode =>
            if tfs.all (fun tf =>
                (rewriteTestFuncNode fnode tf outputPath pkgs).isSome &&
                tf.tests.all (fun item =>
                  match item with
                  | TestItem.test _ => true
                  | TestItem.subtests _ => subNodeOpt.isSome))
            then RunResult.ok (tfs.map TestFunc.name)
            else RunResult.panicked

/-- astutil.AddImport at the import-set level: add the path when absent. -/
def addImport (path : String) (imports : List String) : List String :=
  if path ∈ imports then imports else imports ++ [path]

/-- addAdditionalImports (generator.go lines 474-485): the JSON and RAW cases
    are empty; only FORM registers helper imports — fmt, net/url, bytes and
    text/template, in that order. -/
def addAdditionalImports (typ : ReqType) (imports : List String) : List String :=
  match typ with
  | ReqType.JSON => imports
  | ReqType.RAW => imports
  | ReqType.FORM =>
      addImport "text/template" (addImport "bytes" (addImport "net/url" (addImport "fmt" imports)))

/-- A representative test skeleton: the request headers and params
    assignments and the body-sentinel call. -/
def testSkeleton : Node :=
  Node.blockStmt [
    Node.assignStmt [Node.ident "atgenReqHeaders"] [Node.compositeLit []],
    Node.assignStmt [Node.ident "atgenReqParams"] [Node.compositeLit []],
    Node.exprStmt (Node.callExpr (Node.ident "AtgenRequestBody") [])]

/-- A representative function skeleton holding one router-sentinel call. -/
def routerSkeleton : Node :=
  Node.funcDecl "AtgenTestFunc"
    (Node.blockStmt [Node.exprStmt (Node.callExpr (Node.ident RouterFuncName) [])])

/-- A test function whose router lives in a package outside the output
    package. -/
def c4Func : TestFunc :=
  { name := "TestLogin", vars := [], apiVersions := ["v1"], routerFuncName := "",
    routerFunc := { name := "Router", packagePath := "example.com/app/router" },
    tests := [] }

/-- A template carrying both block markers. -/
def c4Tmpl : List (String × Node) :=
  [("Atgen TestFunc block", routerSkeleton), ("Atgen Test block", testSkeleton)]

/-- A template whose only marker is the Test block — no FunctionSkeleton
    marker. -/
def c5Tmpl : List (String × Node) := [("Atgen Test block", testSkeleton)]

/-- Whether a run result is a returned Go error value. -/
def RunResult.isErrReturned {α : Type} : RunResult α → Bool
  | RunResult.errReturned _ => true
  | _ => false

/-- A concrete RAW request. -/
def c2RawReq : Req :=
  { typ := ReqType.RAW, body := "\x7b\"k\":1\x7d", params := [("a", "b")], headers := [] }

/-- A concrete RAW test. -/
def c2RawTest : Test :=
  { method := "post", path := "/p", register := "", req := c2RawReq, res := res200,
    vars := [], apiVersions := some ["v1"] }

/-- A concrete JSON test. -/
def c2JsonTest : Test :=
  { c2RawTest with
    req := { typ := ReqType.JSON, body := "", params := [("a", "b")], headers := [] } }

/-- The scan of filepath.Ext over the reversed path: collect characters up to
    and including the final dot of the final path element, stopping empty at
    a separator. -/
def takeThruDot : List Char → Option (List Char)
  | [] => none
  | c :: r =>
      if c = '/' then none
      else if c = '.' then some [c]
      else (takeThruDot r).map (fun l => c :: l)

/-- filepath.Ext: the suffix beginning at the final dot in the final element
    of the path; empty when there is none. -/
def goExt (p : String) : String :=
  match takeThruDot p.data.reverse with
  | none => ""
  | some l => ⟨l.reverse⟩

/-- filepath.Base: the last element of the path after trailing separators are
    removed ("." for the empty path, "/" for all-separator paths). -/
def goBase (p : String) : String :=
  if p = "" then "."
  else
    let d := p.data.reverse.dropWhile (fun c => c = '/')
    if d = [] then "/"
    else ⟨(d.takeWhile (fun c => c ≠ '/')).reverse⟩

/-- getFileNameWithoutExt (generator.go lines 61-63). -/
def getFileNameWithoutExt (path : String) : String :=
  goBase ⟨path.data.take (path.data.length - (goExt path).data.length)⟩

/-- strings.HasSuffix. -/
def goHasSuffix (s suffix : String) : Bool :=
  chPref suffix.data.reverse s.data.reverse

/-- Modelled from the spec: the Generator state as generator.go consumes it —
    the struct declaration lives outside the provided source; the fields are
    named for the uses in Generate (Yaml at line 28, Template at line 67,
    OutputDir at lines 36 and 48, TestFuncs at line 33). -/
structure Generator where
  yaml : String
  template : String
  outputDir : String
  testFuncs : List TestFunc

/-- The base name a path contributes to output file names, with the test
    suffix ensured (generator.go lines 28-31 compute this from g.Yaml). -/
def testBaseOf (path : String) : String :=
  let base := getFileNameWithoutExt path
  if goHasSuffix base "_test" then base else base ++ "_test"

/-- The output file name of Generate (generator.go lines 28-35): the version,
    the YAML specification file's base name with the test suffix, and the Go
    extension. -/
def outputFileName (g : Generator) (v : String) : String :=
  v ++ "_" ++ testBaseOf g.yaml ++ ".go"

/-- The output file name C9 claims, written from the spec's wording: derived
    from the template file's base name rather than the specification's. -/
def specOutputFileName (g : Generator) (v : String) : String :=
  v ++ "_" ++ testBaseOf g.template ++ ".go"

/-- The versions holding an entry in the plan map, in first-insertion order
    (Go iterates the map in unspecified order; each version occurs once). -/
def planVersions (tfs : List TestFunc) : List String :=
  dedupeAux [] (tfs.flatMap getVersions)

/-- The final file names Generate writes, one per planned version
    (generator.go lines 34-57). -/
def generateOutputs (g : Generator) : List String :=
  (planVersions g.testFuncs).map (outputFileName g)

/-- The file-system calls of Generate, in program order.  The rename
    constructor exists to state its absence: Generate never renames. -/
inductive FSOp where
  | tempCreate (dir base : String)
  | tempWrite (content : String)
  | createFinal (path : String)
  | copyToFinal (path content : String)
  | rename (src dst : String)
  | removeTemp
deriving DecidableEq

/-- Whether an operation is a rename. -/
def FSOp.isRename : FSOp → Bool
  | FSOp.rename _ _ => true
  | _ => false

/-- filepath.Join of a directory and a file name. -/
def joinPath (dir name : String) : String := dir ++ "/" ++ name

/-- The per-version loop of Generate (generator.go lines 34-57) as an I/O
    trace: create a temp file in the output directory, write the generated
    source into it (abstracted by genRes; a generation error aborts the loop
    and the deferred cleanup closes and removes every temp file created so
    far), then os.Create the final path — truncating it — and io.Copy the
    temp file's content into it.  No rename is ever issued.  The deferred
    removals also run on normal return. -/
def generateOpsGo (g : Generator) (genRes : String → Option String) :
    List String → Nat → List FSOp
  | [], created => List.replicate created FSOp.removeTemp
  | v :: rest, created =>
      FSOp.tempCreate g.outputDir (outputFileName g v) ::
      match genRes v with
      | none => List.replicate (created + 1) FSOp.removeTemp
      | some content =>
          FSOp.tempWrite content ::
          FSOp.createFinal (joinPath g.outputDir (outputFileName g v)) ::
          FSOp.copyToFinal (joinPath g.outputDir (outputFileName g v)) content ::
          generateOpsGo g genRes rest (created + 1)

/-- The I/O trace of Generate (generator.go lines 27-59). -/
def generateOps (g : Generator) (genRes : String → Option String) : List FSOp :=
  generateOpsGo g genRes (planVersions g.testFuncs) 0

/-- The effect of one operation on the contents visible at final paths.
    Temp files carry randomized names distinct from every final path, so
    their operations leave final paths untouched. -/
def applyOp (st : String → Option String) : FSOp → (String → Option String)
  | FSOp.createFinal p => fun q => if q = p then some "" else st q
  | FSOp.copyToFinal p c => fun q => if q = p then some c else st q
  | FSOp.rename src dst =>
      fun q => if q = dst then st src else if q = src then none else st q
  | _ => st

/-- The file system after a trace, starting from `st`. -/
def replayOps (ops : List FSOp) (st : String → Option String) : String → Option String :=
  ops.foldl applyOp st

/-- The empty file system. -/
def emptyFS : String → Option String := fun _ => none

/-- The states visible if the process crashes during a trace: one per prefix
    (io.Copy additionally leaves any prefix of the content mid-copy, which
    only adds further non-final states). -/
def crashStates (ops : List FSOp) : List (String → Option String) :=
  (List.range (ops.length + 1)).map (fun k => replayOps (ops.take k) emptyFS)

/-- Whether an operation can change the contents visible at the given final
    path. -/
def opTouches (path : String) : FSOp → Bool
  | FSOp.createFinal p => p = path
  | FSOp.copyToFinal p _ => p = path
  | FSOp.rename src dst => src = path || dst = path
  | _ => false

/-- A concrete generator: YAML spec file spec.yaml, template tmpl.go. -/
def c9Gen : Generator :=
  { yaml := "spec.yaml", template := "tmpl.go", outputDir := "out",
    testFuncs := [c7Func] }

/-- A generation-result function producing fixed source text. -/
def c10Res : String → Option String := fun _ => some "package out\n"

end Atgen

namespace Atgen

theorem contains_append (s1 s2 : List String) (e : String) :
    contains (s1 ++ s2) e = (contains s1 e || contains s2 e) := by
  simp [contains, List.any_append]

theorem collectVersions_eq (tf : TestFunc) :
    collectVersions tf = tf.apiVersions ++ topLevelVersions tf := by
  unfold collectVersions topLevelVersions
  generalize tf.apiVersions = acc
  induction tf.tests generalizing acc with
  | nil => simp
  | cons hd tl ih =>
      cases hd with
      | test v => simp [List.foldl_cons, ih, List.flatMap_cons, List.append_assoc]
      | subtests s => simp [List.foldl_cons, ih, List.flatMap_cons]

theorem dedupeAux_eq_specDedupFirst (l : List String) (seen : List String) :
    dedupeAux seen l = specDedupFirst (l.filter (fun y => !contains seen y)) := by
  induction l generalizing seen with
  | nil => simp [dedupeAux, specDedupFirst]
  | cons v rest ih =>
      by_cases h : contains seen v = true
      · simp only [dedupeAux, h, if_true, List.filter_cons]
        rw [if_neg (by simp [h])]
        exact ih seen
      · have hfil : List.filter (fun y => !contains (seen ++ [v]) y) rest
            = List.filter (fun a => decide (a ≠ v) && !contains seen a) rest := by
          apply List.filter_congr
          intro a _
          simp only [contains_append, Bool.not_or]
          have hv : contains [v] a = decide (a = v) := by simp [contains]
          rw [hv]
          cases hav : decide (a = v) <;> simp [decide_eq_true_eq] at hav <;> simp [hav]
        rw [dedupeAux, if_neg (by simp [h])]
        rw [List.filter_cons, if_pos (by simp [h])]
        rw [specDedupFirst, ih (seen ++ [v]), hfil, List.filter_filter]

theorem planAdd_mono (tf : TestFunc) (version : String) (m : String → List TestFunc)
    (q : String) (x : TestFunc) (h : x ∈ m q) : x ∈ planAdd tf version m q := by
  unfold planAdd
  split
  · exact List.mem_append_left _ h
  · exact h

theorem planFold_mono (tf : TestFunc) (vs : List String) (m : String → List TestFunc)
    (q : String) (x : TestFunc) (h : x ∈ m q) :
    x ∈ (vs.foldl (fun m2 version => planAdd tf version m2) m) q := by
  induction vs generalizing m with
  | nil => exact h
  | cons a rest ih => exact ih _ (planAdd_mono tf a m q x h)

theorem planFold_add (tf : TestFunc) (vs : List String) (v : String) (hv : v ∈ vs) :
    ∀ m : String → List TestFunc,
      filterTests tf v ∈ (vs.foldl (fun m2 version => planAdd tf version m2) m) v := by
  induction vs with
  | nil => cases hv
  | cons a rest ih =>
      intro m
      rw [List.foldl_cons]
      rcases List.mem_cons.mp hv with h | h
      · subst h
        apply planFold_mono
        unfold planAdd
        rw [if_pos rfl]
        exact List.mem_append_right _ (List.mem_singleton.mpr rfl)
      · exact ih h _

theorem planFold_noTouch (tf : TestFunc) (vs : List String) (v : String) (hv : v ∉ vs) :
    ∀ m : String → List TestFunc,
      (vs.foldl (fun m2 version => planAdd tf version m2) m) v = m v := by
  induction vs with
  | nil => intro m; rfl
  | cons a rest ih =>
      intro m
      have hne : v ≠ a := fun hh => hv (hh ▸ List.mem_cons_self a rest)
      rw [List.foldl_cons, ih (fun hh => hv (List.mem_cons_of_mem a hh)) _]
      unfold planAdd
      rw [if_neg hne]

theorem planOuter_mono (tfs : List TestFunc) (q : String) (x : TestFunc) :
    ∀ m : String → List TestFunc, x ∈ m q → x ∈ (tfs.foldl planFunc m) q := by
  induction tfs with
  | nil => exact fun m h => h
  | cons a rest ih =>
      intro m h
      rw [List.foldl_cons]
      exact ih _ (planFold_mono a _ m q x h)

theorem planOuter_add (tfs : List TestFunc) (tf : TestFunc) (v : String)
    (hmem : tf ∈ tfs) (hv : v ∈ getVersions tf) :
    ∀ m : String → List TestFunc, filterTests tf v ∈ (tfs.foldl planFunc m) v := by
  induction tfs with
  | nil => cases hmem
  | cons a rest ih =>
      intro m
      rw [List.foldl_cons]
      rcases List.mem_cons.mp hmem with h | h
      · subst h
        exact planOuter_mono rest v _ _ (planFold_add tf _ v hv m)
      · exact ih h _

theorem planOuter_noTouch (tfs : List TestFunc) (v : String)
    (hv : ∀ tf ∈ tfs, v ∉ getVersions tf) :
    ∀ m : String → List TestFunc, (tfs.foldl planFunc m) v = m v := by
  induction tfs with
  | nil => intro m; rfl
  | cons a rest ih =>
      intro m
      rw [List.foldl_cons, ih (fun tf h => hv tf (List.mem_cons_of_mem a h)) _]
      exact planFold_noTouch a _ v (hv a (List.mem_cons_self a rest)) m

/-- Claim C1, refuted as stated: for a TestFunction whose only version-scoped
    Test sits inside a SubtestGroup, getVersions computes an empty working set,
    while the union claimed by the spec (which includes Tests nested inside
    SubtestGroups) contains "v9". -/
theorem c1_counterexample :
    getVersions c1Func = [] ∧ specAllVersions c1Func = ["v9"] := by
  refine ⟨rfl, ?_⟩
  show specDedupFirst ([] ++ ["v9"]) = ["v9"]
  rw [List.nil_append, specDedupFirst, List.filter_nil, specDedupFirst]

/-- Claim C1, amended: the computed working set of output versions is the
    first-seen-order deduplication of the function's own APIVersions followed
    by the APIVersions of its top-level Tests only; Tests nested inside
    SubtestGroups contribute nothing. -/
theorem c1_amended (tf : TestFunc) :
    getVersions tf = specDedupFirst (tf.apiVersions ++ topLevelVersions tf) := by
  rw [getVersions, collectVersions_eq, dedupeAux_eq_specDedupFirst]
  congr 1
  apply List.filter_eq_self.mpr
  intro a _
  simp [contains]

/-- Claim C7, refuted as stated: for version v1 (which is in c7Func's working
    set) filtering retains no tests, yet the filtered function is still placed
    in v1's plan, and the generated file for v1 contains a function node named
    F7. -/
theorem c7_counterexample :
    filterTestFuncs [c7Func] "v1" = [filterTests c7Func "v1"] ∧
    (filterTests c7Func "v1").tests = [] ∧
    (filterTests c7Func "v1").name = "F7" ∧
    ((filterTestFuncs [c7Func] "v1").map TestFunc.name) = ["F7"] := by
  refine ⟨?_, by rfl, by rfl, ?_⟩ <;> rfl

/-- Claim C7, amended: a function/version combination whose filtering retains
    no tests is not removed: whenever the version is in the function's working
    set, the filtered (possibly test-less) copy is appended to that version's
    plan, and no error is raised; a version's plan is empty exactly when the
    version is in no planned function's working set. -/
theorem c7_amended (tfs : List TestFunc) (tf : TestFunc) (v : String)
    (hmem : tf ∈ tfs) (hv : v ∈ getVersions tf) :
    filterTests tf v ∈ filterTestFuncs tfs v ∧
    (∀ w, filterTestFuncs tfs w = [] ↔ ∀ tf2 ∈ tfs, w ∉ getVersions tf2) := by
  constructor
  · exact planOuter_add tfs tf v hmem hv _
  · intro w
    constructor
    · intro hempty tf2 h2 hw
      have := planOuter_add tfs tf2 w h2 hw (fun _ => [])
      rw [filterTestFuncs] at hempty
      rw [hempty] at this
      cases this
    · intro hall
      rw [filterTestFuncs]
      exact planOuter_noTouch tfs w hall _

/-- Witness for c7_amended at a concrete plan. -/
theorem c7_amended_witness :
    filterTests c7Func "v1" ∈ filterTestFuncs [c7Func] "v1" :=
  (c7_amended [c7Func] c7Func "v1" (by decide)
    (by rw [show getVersions c7Func = ["v1", "v2"] from rfl]; decide)).1

/-- Claim C8, refuted as stated: a retained Test whose Path holds the version
    placeholder twice keeps the second occurrence unresolved — strings.Replace
    is called with count 1. -/
theorem c8_counterexample :
    filterTest c8Test [] "v1" = some c8KeptTest ∧
    strInfix c8KeptTest.path "\x7bapiVersion\x7d" = true := by
  constructor
  · rfl
  · rfl

/-- Claim C8, amended: every retained Test — also one retained through the
    function-level APIVersions fallback — has exactly the first occurrence of
    the version placeholder in its Path replaced with the current version
    before being handed on. -/
theorem c8_amended (test : Test) (versions : List String) (version : String)
    (t' : Test) (h : filterTest test versions version = some t') :
    t'.path = replOnceStr test.path "\x7bapiVersion\x7d" version := by
  rw [filterTest] at h
  split at h
  · cases h; rfl
  · split at h
    · cases h; rfl
    · cases h

/-- Witness for c8_amended at a concrete retained test. -/
theorem c8_amended_witness :
    c8KeptTest.path = replOnceStr c8Test.path "\x7bapiVersion\x7d" "v1" :=
  c8_amended c8Test [] "v1" c8KeptTest (by rfl)

theorem chPref_self_append (p x : List Char) : chPref p (p ++ x) = true := by
  induction p with
  | nil => rfl
  | cons c r ih => simp [chPref, ih]

theorem chDropLead_self (p x : List Char) : chDropLead p (p ++ x) = x := by
  rw [chDropLead, if_pos (chPref_self_append p x)]
  exact List.drop_left p x

theorem chDropTrail_self (lit x : List Char) : chDropTrail lit (x ++ lit) = x := by
  rw [chDropTrail, List.reverse_append, if_pos (chPref_self_append _ _)]
  rw [← List.length_reverse lit, List.drop_left, List.reverse_reverse]

theorem splitOnCh_free (sep : Char) (a : List Char) (h : ∀ c ∈ a, c ≠ sep) :
    splitOnCh sep a = [a] := by
  induction a with
  | nil => rfl
  | cons c r ih =>
      rw [splitOnCh, if_neg (by exact_mod_cast h c (List.mem_cons_self c r)),
        ih (fun x hx => h x (List.mem_cons_of_mem c hx))]

theorem splitOnCh_append (sep : Char) (a r : List Char) (h : ∀ c ∈ a, c ≠ sep) :
    splitOnCh sep (a ++ sep :: r) = a :: splitOnCh sep r := by
  induction a with
  | nil => simp [splitOnCh]
  | cons c a2 ih =>
      rw [List.cons_append, splitOnCh,
        if_neg (by exact_mod_cast h c (List.mem_cons_self c a2)),
        ih (fun x hx => h x (List.mem_cons_of_mem c hx))]

theorem chInfix_of_mem (x : Char) (l : List Char) (h : x ∈ l) : chInfix [x] l = true := by
  induction l with
  | nil => cases h
  | cons c r ih =>
      rw [chInfix]
      rcases List.mem_cons.mp h with he | hm
      · subst he
        simp [chPref]
      · simp [ih hm]

theorem chInfix_of_not_mem (x : Char) (l : List Char) (h : x ∉ l) : chInfix [x] l = false := by
  induction l with
  | nil => rfl
  | cons c r ih =>
      rw [chInfix]
      have hne : x ≠ c := fun he => h (he ▸ List.mem_cons_self c r)
      simp [chPref, hne, ih (fun hm => h (List.mem_cons_of_mem c hm))]

theorem isDig_ne_lbracket (dc : Char) (h : isDig dc = true) : dc ≠ '[' := by
  intro he
  rw [he] at h
  exact absurd h (by decide)

theorem reMatch_last (nm : List Char) (dc : Char) (hd : isDig dc = true) :
    ∀ acc : List Char, acc ++ nm ≠ [] →
      reMatch acc (nm ++ ['[', dc, ']']) = some (acc ++ nm, dc, []) := by
  induction nm with
  | nil =>
      intro acc hne
      rw [List.append_nil] at hne
      have h1 : ∀ y : List Char, reMatch y [']'] = none := fun y => rfl
      have h2 : reMatch (acc ++ ['[']) [dc, ']'] = none := by
        rw [reMatch, h1]
        rfl
      rw [List.nil_append, List.append_nil, reMatch, h2]
      show brTry acc '[' [dc, ']'] = some (acc, dc, [])
      rw [brTry, if_pos rfl]
      simp [hd, hne]
  | cons c nm2 ih =>
      intro acc hne
      rw [List.cons_append, reMatch, ih (acc ++ [c]) (by simp)]
      simp

theorem reReplAll_nil (fuel : Nat) : reReplAll fuel [] = [] := by
  cases fuel <;> rfl

theorem reReplAll_seg (nm : List Char) (dc : Char) (hd : isDig dc = true) (hne : nm ≠ []) :
    reReplAll (nm ++ ['[', dc, ']']).length (nm ++ ['[', dc, ']'])
      = "[\"".data ++ nm ++ "\"].([]interface\x7b\x7d)[".data ++ [dc] ++ "]".data := by
  cases nm with
  | nil => cases hne rfl
  | cons a nm2 =>
      have hm : reMatch [] ((a :: nm2) ++ ['[', dc, ']']) = some (a :: nm2, dc, []) :=
        reMatch_last (a :: nm2) dc hd [] (by simp)
      rw [List.cons_append] at hm ⊢
      have hlen : (a :: (nm2 ++ ['[', dc, ']'])).length = (nm2 ++ ['[', dc, ']']).length + 1 :=
        rfl
      rw [hlen, reReplAll, hm]
      simp [reReplAll_nil]

theorem digitChar_facts (d : Nat) (h : d < 10) :
    isDig (Nat.digitChar d) = true ∧ Nat.digitChar d ≠ '.' ∧ Nat.digitChar d ≠ '[' := by
  interval_cases d <;> exact ⟨by decide, by decide, by decide⟩

theorem wfSeg_parts (name : List Char) (idx : Option Nat) (h : wfSeg ⟨name, idx⟩ = true) :
    name ≠ [] ∧ (∀ c ∈ name, c ≠ '.' ∧ c ≠ '[' ∧ c ≠ '\n') ∧
      (∀ d, idx = some d → d < 10) := by
  simp only [wfSeg, Bool.and_eq_true, List.all_eq_true] at h
  obtain ⟨⟨hne, hall⟩, hidx⟩ := h
  refine ⟨by simpa using hne, ?_, ?_⟩
  · intro c hc
    have := hall c hc
    simp only [Bool.and_eq_true, decide_eq_true_eq] at this
    exact ⟨this.1.1, this.1.2, this.2⟩
  · intro d hd
    rw [hd] at hidx
    simpa using hidx

theorem renderSeg_dotfree (s : RSeg) (h : wfSeg s = true) : ∀ c ∈ renderSeg s, c ≠ '.' := by
  rcases s with ⟨name, idx⟩
  obtain ⟨hne, hall, hidx⟩ := wfSeg_parts name idx h
  intro c hc
  rcases idx with _ | d
  · rw [renderSeg] at hc
    simp only [List.append_nil] at hc
    exact (hall c hc).1
  · rw [renderSeg] at hc
    rcases List.mem_append.mp hc with hm | hm
    · exact (hall c hm).1
    · have hd10 : d < 10 := hidx d rfl
      rcases hm with _ | ⟨_, hm2⟩
      · decide
      · rcases hm2 with _ | ⟨_, hm3⟩
        · exact (digitChar_facts d hd10).2.1
        · rcases hm3 with _ | ⟨_, hm4⟩
          · decide
          · cases hm4

theorem regSeg_proc (s : RSeg) (h : wfSeg s = true) :
    (if chInfix "[".data (renderSeg s) then reReplAll (renderSeg s).length (renderSeg s)
     else "[\"".data ++ renderSeg s ++ "\"]".data) = specChainSeg0 s := by
  rcases s with ⟨name, idx⟩
  obtain ⟨hne, hall, hidx⟩ := wfSeg_parts name idx h
  rcases idx with _ | d
  · have hno : '[' ∉ renderSeg ⟨name, none⟩ := by
      rw [renderSeg]
      simp only [List.append_nil]
      intro hm
      exact (hall _ hm).2.1 rfl
    rw [if_neg (by rw [show "[".data = ['['] from rfl, chInfix_of_not_mem _ _ hno]; simp)]
    rw [specChainSeg0, specIdxPart]
    simp [renderSeg]
  · have hd10 : d < 10 := hidx d rfl
    have hmem : '[' ∈ renderSeg ⟨name, some d⟩ := by
      rw [renderSeg]
      exact List.mem_append_right _ (List.mem_cons_self _ _)
    rw [if_pos (by rw [show "[".data = ['['] from rfl, chInfix_of_mem _ _ hmem])]
    rw [show renderSeg ⟨name, some d⟩ = name ++ ['[', Nat.digitChar d, ']'] from rfl]
    rw [reReplAll_seg name (Nat.digitChar d) (digitChar_facts d hd10).1 hne]
    rw [specChainSeg0, specIdxPart]
    rw [show ("\"].([]interface\x7b\x7d)[".data : List Char)
        = "\"]".data ++ ".([]interface\x7b\x7d)[".data from rfl]
    simp [List.append_assoc]

theorem regSegLoop_tail (segs : List RSeg) : ∀ i : Nat, segs.all wfSeg = true →
    regSegLoop (i + 1) (segs.map renderSeg) = segs.flatMap specChainSegN := by
  induction segs with
  | nil => intro i _; rfl
  | cons s rest ih =>
      intro i h
      rw [List.all_cons, Bool.and_eq_true] at h
      rw [List.map_cons, regSegLoop, if_pos (by omega), regSeg_proc s h.1,
        ih (i + 1) h.2, List.flatMap_cons]
      rw [specChainSegN,
        show (".(map[string]interface\x7b\x7d)[\"".data : List Char)
          = ".(map[string]interface\x7b\x7d)".data ++ "[\"".data from rfl]
      rw [specChainSeg0]
      simp [List.append_assoc]

theorem renderPath_split (first : RSeg) (rest : List RSeg) :
    wfSeg first = true → rest.all wfSeg = true →
      splitOnCh '.' (renderPath first rest) = renderSeg first :: rest.map renderSeg := by
  induction rest generalizing first with
  | nil =>
      intro h1 _
      rw [renderPath]
      simp only [List.flatMap_nil, List.append_nil, List.map_nil]
      exact splitOnCh_free '.' _ (renderSeg_dotfree first h1)
  | cons s rest2 ih =>
      intro h1 h2
      rw [List.all_cons, Bool.and_eq_true] at h2
      have hre : renderPath first (s :: rest2) = renderSeg first ++ '.' :: renderPath s rest2 := by
        rw [renderPath, renderPath, List.flatMap_cons, List.cons_append]
      rw [hre, splitOnCh_append '.' _ _ (renderSeg_dotfree first h1), ih s h2.1 h2.2,
        List.map_cons]

theorem replaceRegister_renders (first : RSeg) (rest : List RSeg)
    (h1 : wfSeg first = true) (h2 : rest.all wfSeg = true) :
    replaceRegister (renderRegisterLit first rest) = specChain first rest := by
  rw [replaceRegister, renderRegisterLit]
  show String.mk ("atgenRegister".data ++ regSegLoop 0 (splitOnCh '.'
      (chDropTrail "]\"".data (chDropLead "\"$atgenRegister[".data
        ("\"$atgenRegister[".data ++ renderPath first rest ++ "]\"".data))))
      ++ ".(string)".data) = specChain first rest
  have e1 : chDropLead "\"$atgenRegister[".data
      ("\"$atgenRegister[".data ++ renderPath first rest ++ "]\"".data)
      = renderPath first rest ++ "]\"".data := by
    rw [List.append_assoc]
    exact chDropLead_self _ _
  rw [e1, chDropTrail_self,
    renderPath_split first rest h1 h2, regSegLoop, if_neg (by omega),
    regSegLoop_tail rest 0 h2, specChain]
  rw [regSeg_proc first h1]
  simp [List.append_assoc]

/-- Claim C3, refuted as stated: for the grammar-conforming path a.b[10] —
    whose bracketed index has two digits — the rewriter emits broken text (the
    segment b[10] is pasted through unquoted because the regular expression
    (.+)\[(\d)\] matches exactly one digit), not the claimed chain of a map
    lookup "a", a map lookup "b", the sequence index 10 and a string
    assertion. -/
theorem c3_counterexample :
    replaceRegister "\"$atgenRegister[a.b[10]]\""
        = "atgenRegister[\"a\"].(map[string]interface\x7b\x7d)b[10].(string)" ∧
    replaceRegister "\"$atgenRegister[a.b[10]]\""
        ≠ "atgenRegister[\"a\"].(map[string]interface\x7b\x7d)[\"b\"].([]interface\x7b\x7d)[10].(string)" := by
  constructor
  · rfl
  · decide

/-- Claim C3, amended: for register paths of the form
    ident ('[' digit ']')? ( '.' ident ('[' digit ']')? )* — that is, with
    single-digit indices, each bracket suffixed to an identifier — the
    rewriter produces exactly the claimed left-to-right chain: a string-keyed
    map lookup per dotted segment, a zero-based sequence index per bracketed
    segment, terminating in a string-type assertion; and the second rewrite
    pass dispatches such literals to replaceRegister. -/
theorem c3_amended (first : RSeg) (rest : List RSeg)
    (h1 : wfSeg first = true) (h2 : rest.all wfSeg = true) :
    replaceRegister (renderRegisterLit first rest) = specChain first rest ∧
    pass2Lit (renderRegisterLit first rest)
      = replaceRegister (renderRegisterLit first rest) := by
  refine ⟨replaceRegister_renders first rest h1 h2, ?_⟩
  have hvar : chPref "\"$\x7b".data (renderRegisterLit first rest).data = false := by
    show chPref ['"', '$', '\x7b']
      ('"' :: '$' :: 'a' :: ("tgenRegister[".data ++ (renderPath first rest ++ "]\"".data)))
        = false
    simp [chPref]
  have hreg : chPref "\"$atgenRegister[".data (renderRegisterLit first rest).data = true := by
    rw [renderRegisterLit]
    show chPref "\"$atgenRegister[".data
      ("\"$atgenRegister[".data ++ renderPath first rest ++ "]\"".data) = true
    rw [List.append_assoc]
    exact chPref_self_append _ _
  rw [pass2Lit, if_neg (by rw [hvar]; simp), if_pos hreg]

/-- Witness for c3_amended at the spec's worked example a.b[0].c. -/
theorem c3_amended_witness :
    replaceRegister (renderRegisterLit c3First c3Rest) = specChain c3First c3Rest :=
  (c3_amended c3First c3Rest (by decide) (by decide)).1

theorem rw1_isSome (t : Test) (id : String) (n : Node) (h : isAssign n = false) :
    ((rw1 t id n).2).isSome = true := by
  cases n with
  | assignStmt lhs rhs => simp [isAssign] at h
  | callExpr fn args =>
      rw [rw1.eq_5]
      split <;> simp
  | compositeLit elts =>
      rcases hrep : replacementFor t id with _ | s <;> simp [rw1, hrep]
  | basicLit v => simp [rw1]
  | ident nm => simp [rw1]
  | selector p f => simp [rw1]
  | parsedExpr s => simp [rw1]
  | blockStmt stmts => simp [rw1]
  | exprStmt e => simp [rw1]
  | funcDecl nm body => simp [rw1]

theorem rw1_ident_inv (t : Test) (id : String) (n : Node) (nm : String)
    (h : (rw1 t id n).2 = some (Node.ident nm)) : n = Node.ident nm := by
  cases n with
  | ident nm0 =>
      simp [rw1] at h
      rw [h]
  | assignStmt lhs rhs =>
      rw [rw1.eq_6] at h
      split at h <;> simp at h
  | callExpr fn args =>
      rw [rw1.eq_5] at h
      split at h <;> simp at h
  | compositeLit elts =>
      rcases hrep : replacementFor t id with _ | s <;> simp [rw1, hrep] at h
  | basicLit v => simp [rw1] at h
  | selector p f => simp [rw1] at h
  | parsedExpr s => simp [rw1] at h
  | blockStmt stmts => simp [rw1] at h
  | exprStmt e => simp [rw1] at h
  | funcDecl nm2 body => simp [rw1] at h

theorem rw1List_headParams (t : Test) (id : String) (lhs : List Node)
    (hall : lhs.all (fun x => !isAssign x) = true)
    (hh : headIsParams lhs = false) :
    headIsParams ((rw1List t id lhs).2) = false := by
  cases lhs with
  | nil => exact hh
  | cons n0 rest =>
      have h0 : isAssign n0 = false := by
        rw [List.all_cons, Bool.and_eq_true] at hall
        simpa using hall.1
      obtain ⟨m, hm⟩ := Option.isSome_iff_exists.mp (rw1_isSome t id n0 h0)
      rw [rw1List, hm]
      cases m with
      | ident nm =>
          have hn0 : n0 = Node.ident nm := rw1_ident_inv t id n0 nm hm
          rw [hn0] at hh
          simpa [headIsParams] using hh
      | basicLit v => simp [headIsParams]
      | selector p f => simp [headIsParams]
      | parsedExpr s => simp [headIsParams]
      | callExpr fn args => simp [headIsParams]
      | assignStmt l r => simp [headIsParams]
      | compositeLit elts => simp [headIsParams]
      | blockStmt stmts => simp [headIsParams]
      | exprStmt e => simp [headIsParams]
      | funcDecl nm body => simp [headIsParams]

theorem rw2List_head (lhs : List Node) : headIsParams (rw2List lhs) = headIsParams lhs := by
  cases lhs with
  | nil => rfl
  | cons n rest => cases n <;> simp [rw2List, rw2, headIsParams]

theorem rw2_countPA (n : Node) : countPA (rw2 n) = countPA n := by
  refine rw2.induct (fun n => countPA (rw2 n) = countPA n)
    (fun l => countPAList (rw2List l) = countPAList l)
    ?_ ?_ ?_ ?_ ?_ ?_ ?_ ?_ ?_ ?_ ?_ ?_ n
  · intro v; simp [rw2, countPA]
  · intro nm; simp [rw2, countPA]
  · intro p f; simp [rw2, countPA]
  · intro s; simp [rw2, countPA]
  · intro fn args ih1 ih2; simp [rw2, countPA, ih1, ih2]
  · intro lhs rhs ih1 ih2; simp [rw2, countPA, ih1, ih2, rw2List_head]
  · intro elts ih; simp [rw2, countPA, ih]
  · intro stmts ih; simp [rw2, countPA, ih]
  · intro e ih; simp [rw2, countPA, ih]
  · intro nm body ih; simp [rw2, countPA, ih]
  · simp [rw2List, countPAList]
  · intro n2 rest ih1 ih2; simp [rw2List, countPAList, ih1, ih2]

theorem rw1_raw (t : Test) (hraw : t.req.typ = ReqType.RAW) (id : String) (n : Node) :
    wfNode n = true →
      (match (rw1 t id n).2 with
       | some m => countPA m
       | none => 0) = 0 := by
  refine rw1.induct t
    (fun id n => wfNode n = true →
      (match (rw1 t id n).2 with
       | some m => countPA m
       | none => 0) = 0)
    (fun id l => wfList l = true → countPAList ((rw1List t id l).2) = 0)
    ?_ ?_ ?_ ?_ ?_ ?_ ?_ ?_ ?_ ?_ ?_ ?_ ?_ ?_ id n
  · intro id v _; simp [rw1, countPA]
  · intro x nm _; simp [rw1, countPA]
  · intro x p f _; simp [rw1, countPA]
  · intro id s _; simp [rw1, countPA]
  · intro id fn args hcond r1 ih1 ih2 _
    rw [rw1.eq_5]
    simp only [hcond, if_true]
    simp [countPA]
  · intro id fn args hcond r1 ih1 ih2 hwf
    rw [wfNode.eq_5, Bool.and_eq_true, Bool.and_eq_true, Bool.not_eq_true'] at hwf
    obtain ⟨⟨h1, h2⟩, h3⟩ := hwf
    obtain ⟨m, hm⟩ := Option.isSome_iff_exists.mp (rw1_isSome t id fn h1)
    have e1 := ih1 h2
    rw [hm] at e1
    simp only at e1
    have e2 := ih2 h3
    rw [rw1.eq_5]
    rw [if_neg hcond]
    simp only [hm, Option.getD_some]
    simp [countPA, e1, e2]
  · intro id lhs rhs r1 ih1 ih2 hwf
    rw [wfNode.eq_6, Bool.and_eq_true, Bool.and_eq_true] at hwf
    obtain ⟨⟨hall, hl⟩, hr⟩ := hwf
    by_cases hh : headIsParams lhs = true
    · rw [rw1.eq_6]
      simp [hraw, hh]
    · have hh2 : headIsParams lhs = false := by simpa using hh
      rw [rw1.eq_6]
      simp [hraw, hh2, countPA, ih1 hl, ih2 hr,
        rw1List_headParams t id lhs hall hh2]
  · intro id elts src hrep ih _
    simp [rw1, hrep, countPA]
  · intro id elts hrep ih hwf
    rw [wfNode.eq_7] at hwf
    simp [rw1, hrep, countPA, ih hwf]
  · intro id stmts ih hwf
    rw [wfNode.eq_8] at hwf
    simp [rw1, countPA, ih hwf]
  · intro id e ih hwf
    rw [wfNode.eq_9, Bool.and_eq_true, Bool.not_eq_true'] at hwf
    obtain ⟨h1, h2⟩ := hwf
    obtain ⟨m, hm⟩ := Option.isSome_iff_exists.mp (rw1_isSome t id e h1)
    have e1 := ih h2
    rw [hm] at e1
    simp only at e1
    simp [rw1, hm, countPA, e1]
  · intro id nm body ih hwf
    rw [wfNode.eq_10, Bool.and_eq_true, Bool.not_eq_true'] at hwf
    obtain ⟨h1, h2⟩ := hwf
    obtain ⟨m, hm⟩ := Option.isSome_iff_exists.mp (rw1_isSome t id body h1)
    have e1 := ih h2
    rw [hm] at e1
    simp only at e1
    simp [rw1, hm, countPA, e1]
  · intro id _; simp [rw1List, countPAList]
  · intro id n2 rest r ih1 ih2 hwf
    rw [wfList.eq_2, Bool.and_eq_true] at hwf
    obtain ⟨h1, h2⟩ := hwf
    have e2 := ih2 h2
    rcases hr : (rw1 t id n2).2 with _ | m
    · simp [rw1List, hr, countPAList, e2]
    · have e1 := ih1 h1
      rw [hr] at e1
      simp only at e1
      simp [rw1List, hr, countPAList, e1, e2]

theorem rewriteTestNode_raw (t : Test) (hraw : t.req.typ = ReqType.RAW) (n : Node)
    (hroot : isAssign n = false) (hwf : wfNode n = true) :
    countPA (rewriteTestNode t n) = 0 := by
  obtain ⟨m, hm⟩ := Option.isSome_iff_exists.mp (rw1_isSome t "" n hroot)
  have h := rw1_raw t hraw "" n hwf
  rw [hm] at h
  simp only at h
  rw [rewriteTestNode, hm, Option.getD_some, rw2_countPA]
  exact h

theorem rewriteTestNode_skeleton_nonraw (t : Test) (h : t.req.typ ≠ ReqType.RAW) :
    countPA (rewriteTestNode t testSkeleton) = 1 := by
  cases htyp : t.req.typ with
  | RAW => exact absurd htyp h
  | JSON =>
      simp [rewriteTestNode, testSkeleton, rw1, rw1List, rw2, rw2List, countPA,
        countPAList, headIsParams, replacementFor, isBodyCall, generateRequestBody,
        rewriteLitValue, htyp, pass2Lit]
  | FORM =>
      simp [rewriteTestNode, testSkeleton, rw1, rw1List, rw2, rw2List, countPA,
        countPAList, headIsParams, replacementFor, isBodyCall, generateRequestBody,
        rewriteLitValue, htyp, pass2Lit]

/-- Claim C2, confirmed: the request-body expression is selected by
    ContentType — JSON yields the expression serializing the params mapping
    via json.Marshal with an error on failure, FORM an inline function
    URL-encoding every param through url.Values, RAW an inline function
    rendering the literal Body through a one-field text/template substitution
    — and, additionally and only observed for RAW, every params assignment is
    deleted from the (well-shaped) cloned test node, while a non-RAW rewrite
    of the representative skeleton keeps it.  The trailing substring facts
    pin which names each synthesized expression references. -/
theorem c2_confirmed (t : Test) :
    (t.req.typ = ReqType.JSON → generateRequestBody t.req = some jsonBodySrc) ∧
    (t.req.typ = ReqType.FORM → generateRequestBody t.req = some formBodySrc) ∧
    (t.req.typ = ReqType.RAW →
      generateRequestBody t.req = some (rawBodyPre ++ goQuote t.req.body ++ rawBodyPost)) ∧
    (t.req.typ = ReqType.RAW → ∀ n : Node, isAssign n = false → wfNode n = true →
      countPA (rewriteTestNode t n) = 0) ∧
    (t.req.typ ≠ ReqType.RAW → countPA (rewriteTestNode t testSkeleton) = 1) ∧
    strInfix jsonBodySrc "atgenReqParams" = true ∧
    strInfix formBodySrc "url.Values" = true ∧
    strInfix formBodySrc "atgenReqParams" = true ∧
    strInfix rawBodyPre "template.New(\"body\")" = true ∧
    strInfix (rawBodyPre ++ rawBodyPost) "atgenReqParams" = false := by
  refine ⟨?_, ?_, ?_, ?_, rewriteTestNode_skeleton_nonraw t, ?_, ?_, ?_, ?_, ?_⟩
  · intro h; simp [generateRequestBody, h]
  · intro h; simp [generateRequestBody, h]
  · intro h; simp [generateRequestBody, h]
  · intro h n hroot hwf; exact rewriteTestNode_raw t h n hroot hwf
  · rfl
  · rfl
  · rfl
  · rfl
  · rfl

/-- Witness for c2_confirmed at a concrete RAW test and the representative
    skeleton. -/
theorem c2_confirmed_witness :
    generateRequestBody c2RawTest.req
        = some (rawBodyPre ++ goQuote c2RawTest.req.body ++ rawBodyPost) ∧
    countPA (rewriteTestNode c2RawTest testSkeleton) = 0 ∧
    countPA (rewriteTestNode c2JsonTest testSkeleton) = 1 :=
  ⟨(c2_confirmed c2RawTest).2.2.1 rfl,
   (c2_confirmed c2RawTest).2.2.2.1 rfl testSkeleton rfl rfl,
   (c2_confirmed c2JsonTest).2.2.2.2.1 (by simp [c2JsonTest])⟩

/-- Claim C4, refuted as stated: with a router whose declaring package is
    outside the output package and no loaded package matching it, the
    router rewrite dereferences the unresolved (nil) package and the run
    aborts abnormally — no error value is returned, so the failure mode is a
    panic, not an AssemblyError result. -/
theorem c4_counterexample :
    rewriteTestFuncNode routerSkeleton c4Func "example.com/app/out" [] = none ∧
    generateTestFuncsOutcome c4Tmpl [c4Func] (Except.ok "example.com/app/out") []
      = RunResult.panicked ∧
    (generateTestFuncsOutcome c4Tmpl [c4Func] (Except.ok "example.com/app/out")
      []).isErrReturned = false := by
  refine ⟨rfl, rfl, rfl⟩

/-- Claim C4, amended: when the RouterReference's declaring package differs
    from the output package and matches no loaded package, the router rewrite
    of a skeleton holding the router sentinel aborts abnormally (nil-package
    dereference, modelled `none`) instead of returning an error value. -/
theorem c4_amended (tf : TestFunc) (outputPath : String) (pkgs : List PackageInfo)
    (h1 : tf.routerFunc.packagePath ≠ outputPath)
    (h2 : findPkg pkgs tf.routerFunc.packagePath = none) :
    routerReplacement tf outputPath pkgs = none ∧
    rewriteTestFuncNode routerSkeleton tf outputPath pkgs = none := by
  have hrep : routerReplacement tf outputPath pkgs = none := by
    rw [routerReplacement, if_neg h1, h2]
  refine ⟨hrep, ?_⟩
  simp [rewriteTestFuncNode, routerSkeleton, rwRouter, rwRouterList, hrep,
    RouterFuncName]

/-- Witness for c4_amended at concrete inputs. -/
theorem c4_amended_witness :
    rewriteTestFuncNode routerSkeleton c4Func "example.com/app/out"
      [⟨"other", "example.com/other"⟩] = none :=
  (c4_amended c4Func "example.com/app/out" [⟨"other", "example.com/other"⟩]
    (by decide) rfl).2

/-- Claim C5, refuted as stated: a template with a Test marker but no
    FunctionSkeleton marker makes generation abort abnormally (nil-node
    panic), not return a ConfigError — no error value is returned at all. -/
theorem c5_counterexample :
    generateTestFuncsOutcome c5Tmpl [c4Func] (Except.ok "example.com/app/out") []
      = RunResult.panicked ∧
    (generateTestFuncsOutcome c5Tmpl [c4Func] (Except.ok "example.com/app/out")
      []).isErrReturned = false := by
  refine ⟨rfl, rfl⟩

/-- Claim C5, amended: when the template carries no comment containing the
    FunctionSkeleton marker, generation never returns a ConfigError — for
    every input specification it aborts abnormally (a nil-node panic inside
    the skeleton traversal or duplication), though with the Test marker also
    absent or present the abort happens at different points; an error value
    is returned only by the earlier package-resolution steps. -/
theorem c5_amended (tmpl : List (String × Node)) (tfs : List TestFunc)
    (outputPath : String) (pkgs : List PackageInfo)
    (h : findMarked "Atgen TestFunc block" tmpl = none) :
    generateTestFuncsOutcome tmpl tfs (Except.ok outputPath) pkgs
      = RunResult.panicked := by
  by_cases ht : (findMarked "Atgen Test block" tmpl).isNone
  · simp [generateTestFuncsOutcome, ht]
  · simp [generateTestFuncsOutcome, ht, h]

/-- Witness for c5_amended at the concrete marker-less template. -/
theorem c5_amended_witness :
    generateTestFuncsOutcome c5Tmpl [] (Except.ok "p") [] = RunResult.panicked :=
  c5_amended c5Tmpl [] "p" [] rfl

/-- Claim C6 as the code stands: the RAW case of addAdditionalImports is
    empty, so a RAW test registers no helper imports at all — although the
    synthesized RAW body expression references text/template and bytes —
    while FORM registers fmt, net/url, bytes and text/template. -/
theorem c6_code_behavior :
    (∀ imports : List String, addAdditionalImports ReqType.RAW imports = imports) ∧
    addAdditionalImports ReqType.FORM [] = ["fmt", "net/url", "bytes", "text/template"] ∧
    addAdditionalImports ReqType.JSON [] = [] ∧
    strInfix rawBodyPre "template.New" = true ∧
    strInfix rawBodyPre "bytes.NewBuffer" = true ∧
    strInfix formBodySrc "template" = false ∧
    strInfix formBodySrc "bytes" = false := by
  refine ⟨fun imports => rfl, rfl, rfl, rfl, rfl, rfl, rfl⟩

theorem specDedupFirst_mem_iff (a : String) (l : List String) :
    a ∈ specDedupFirst l ↔ a ∈ l := by
  induction l using specDedupFirst.induct with
  | case1 => simp [specDedupFirst]
  | case2 x xs ih =>
      rw [specDedupFirst]
      by_cases hax : a = x
      · subst hax
        simp
      · simp only [List.mem_cons, ih, List.mem_filter]
        constructor
        · rintro (h | ⟨h, _⟩)
          · exact absurd h hax
          · exact Or.inr h
        · rintro (h | h)
          · exact absurd h hax
          · exact Or.inr ⟨h, by simpa using hax⟩

theorem specDedupFirst_nodup (l : List String) : (specDedupFirst l).Nodup := by
  induction l using specDedupFirst.induct with
  | case1 => simp [specDedupFirst]
  | case2 x xs ih =>
      rw [specDedupFirst]
      refine List.nodup_cons.mpr ⟨?_, ih⟩
      intro hmem
      have := (specDedupFirst_mem_iff x _).mp hmem
      rw [List.mem_filter] at this
      simpa using this.2

theorem dedupe_of_empty_seen (l : List String) : dedupeAux [] l = specDedupFirst l := by
  rw [dedupeAux_eq_specDedupFirst]
  congr 1
  apply List.filter_eq_self.mpr
  intro a _
  simp [contains]

theorem outputFileName_inj (g : Generator) : Function.Injective (outputFileName g) := by
  intro a b h
  have hd := congrArg String.data h
  simp only [outputFileName, String.data_append] at hd
  rw [List.append_assoc, List.append_assoc, List.append_assoc, List.append_assoc] at hd
  have := List.append_cancel_right hd
  exact String.ext this

theorem joinFinal_inj (g : Generator) (a b : String)
    (h : joinPath g.outputDir (outputFileName g a)
      = joinPath g.outputDir (outputFileName g b)) : a = b := by
  apply outputFileName_inj g
  have hd := congrArg String.data h
  simp only [joinPath, String.data_append] at hd
  rw [List.append_assoc, List.append_assoc] at hd
  have h2 := List.append_cancel_left hd
  have h3 := List.append_cancel_left h2
  exact String.ext h3

/-- Claim C9, refuted as stated: output names combine the version with the
    base name of the YAML specification file (g.Yaml), not the template
    file's base name — with spec.yaml and tmpl.go the files are
    v1_spec_test.go and v2_spec_test.go, not v1_tmpl_test.go. -/
theorem c9_counterexample :
    generateOutputs c9Gen = ["v1_spec_test.go", "v2_spec_test.go"] ∧
    specOutputFileName c9Gen "v1" = "v1_tmpl_test.go" ∧
    outputFileName c9Gen "v1" ≠ specOutputFileName c9Gen "v1" := by
  refine ⟨rfl, rfl, by decide⟩

/-- Claim C9, amended: generation emits exactly one source file per resolved
    API version — the output names are pairwise distinct and the name for a
    version is emitted exactly when some test function's working set holds
    that version — and each name combines the version identifier, the YAML
    specification file's base name (not the template's), the test-file
    suffix when absent, and the Go extension. -/
theorem c9_amended (g : Generator) :
    (generateOutputs g).Nodup ∧
    ∀ v : String, (outputFileName g v ∈ generateOutputs g ↔
      ∃ tf ∈ g.testFuncs, v ∈ getVersions tf) := by
  have hplan : ∀ v : String,
      (v ∈ planVersions g.testFuncs ↔ ∃ tf ∈ g.testFuncs, v ∈ getVersions tf) := by
    intro v
    rw [planVersions, dedupe_of_empty_seen, specDedupFirst_mem_iff, List.mem_flatMap]
  constructor
  · rw [generateOutputs]
    apply List.Nodup.map (outputFileName_inj g)
    rw [planVersions, dedupe_of_empty_seen]
    exact specDedupFirst_nodup _
  · intro v
    rw [generateOutputs, ← hplan v]
    constructor
    · intro h
      obtain ⟨w, hw, he⟩ := List.mem_map.mp h
      rwa [← outputFileName_inj g he]
    · intro h
      exact List.mem_map.mpr ⟨v, h, rfl⟩

theorem replay_untouched (path : String) (ops : List FSOp)
    (h : ∀ op ∈ ops, opTouches path op = false) :
    ∀ st : String → Option String, replayOps ops st path = st path := by
  induction ops with
  | nil => intro st; rfl
  | cons op rest ih =>
      intro st
      rw [replayOps, List.foldl_cons]
      have hrest := ih (fun op2 hm => h op2 (List.mem_cons_of_mem op hm))
      rw [show List.foldl applyOp (applyOp st op) rest = replayOps rest (applyOp st op)
        from rfl, hrest (applyOp st op)]
      have hop := h op (List.mem_cons_self op rest)
      cases op with
      | createFinal p =>
          simp only [opTouches, decide_eq_false_iff_not] at hop
          have hne : path ≠ p := fun he => hop he.symm
          simp [applyOp, hne]
      | copyToFinal p c =>
          simp only [opTouches, decide_eq_false_iff_not] at hop
          have hne : path ≠ p := fun he => hop he.symm
          simp [applyOp, hne]
      | rename src dst =>
          simp only [opTouches, Bool.or_eq_false_iff, decide_eq_false_iff_not] at hop
          have h1 : path ≠ dst := fun he => hop.2 he.symm
          have h2 : path ≠ src := fun he => hop.1 he.symm
          simp [applyOp, h1, h2]
      | tempCreate d b => rfl
      | tempWrite c => rfl
      | removeTemp => rfl

theorem replicate_removeTemp_all (p : FSOp → Bool) (hp : p FSOp.removeTemp = true) :
    ∀ n : Nat, (List.replicate n FSOp.removeTemp).all p = true := by
  intro n
  induction n with
  | zero => rfl
  | succ k ih => simp [List.replicate, List.all_cons, hp, ih]

theorem generateOps_norename (g : Generator) (genRes : String → Option String) :
    (generateOps g genRes).all (fun op => !FSOp.isRename op) = true := by
  rw [generateOps]
  have haux : ∀ (vs : List String) (created : Nat),
      (generateOpsGo g genRes vs created).all (fun op => !FSOp.isRename op) = true := by
    intro vs
    induction vs with
    | nil =>
        intro created
        exact replicate_removeTemp_all _ rfl created
    | cons v rest ih =>
        intro created
        rw [generateOpsGo]
        rcases hg : genRes v with _ | c
        · simp only [List.all_cons, Bool.and_eq_true]
          exact ⟨rfl, replicate_removeTemp_all (fun op => !FSOp.isRename op) rfl _⟩
        · simp only [List.all_cons, Bool.and_eq_true]
          exact ⟨rfl, rfl, rfl, rfl, ih (created + 1)⟩
  exact haux _ 0

theorem generateOps_error_untouched (g : Generator) (genRes : String → Option String)
    (v : String) (hv : genRes v = none) :
    ∀ op ∈ generateOps g genRes,
      opTouches (joinPath g.outputDir (outputFileName g v)) op = false := by
  rw [generateOps]
  have haux : ∀ (vs : List String) (created : Nat), ∀ op ∈ generateOpsGo g genRes vs created,
      opTouches (joinPath g.outputDir (outputFileName g v)) op = false := by
    intro vs
    induction vs with
    | nil =>
        intro created op hm
        rw [List.eq_of_mem_replicate hm]
        rfl
    | cons v2 rest ih =>
        intro created op hm
        rw [generateOpsGo] at hm
        rcases List.mem_cons.mp hm with he | hm2
        · rw [he]; rfl
        · rcases hg : genRes v2 with _ | c
          · rw [hg] at hm2
            rw [List.eq_of_mem_replicate hm2]
            rfl
          · rw [hg] at hm2
            have hne : v2 ≠ v := by
              intro he2
              rw [he2, hv] at hg
              cases hg
            have hpne : joinPath g.outputDir (outputFileName g v2)
                ≠ joinPath g.outputDir (outputFileName g v) :=
              fun he2 => hne (joinFinal_inj g v2 v he2)
            rcases List.mem_cons.mp hm2 with he2 | hm3
            · rw [he2]; rfl
            · rcases List.mem_cons.mp hm3 with he3 | hm4
              · rw [he3]
                simp [opTouches, hpne]
              · rcases List.mem_cons.mp hm4 with he4 | hm5
                · rw [he4]
                  simp [opTouches, hpne]
                · exact ih (created + 1) op hm5
  exact haux _ 0

/-- Claim C10, refuted as stated: after the final file is created and before
    the copy finishes, the final path holds an empty (incomplete) file — a
    crash there leaves a partially written output file visible — and the
    trace issues no rename at all, so the claimed rename semantics do not
    exist. -/
theorem c10_counterexample :
    (crashStates (generateOps c9Gen c10Res)).getD 3 emptyFS "out/v1_spec_test.go"
      = some "" ∧
    c10Res "v1" = some "package out\n" ∧
    ("" : String) ≠ "package out\n" ∧
    (generateOps c9Gen c10Res).all (fun op => !FSOp.isRename op) = true := by
  refine ⟨rfl, rfl, by decide, rfl⟩

/-- Claim C10, amended: Generate writes each version through a temporary
    file and creates the final file only after that version's generation
    succeeded — a generation error leaves nothing at that version's final
    path under any crash prefix — but the final file is then produced by a
    direct create-and-copy with no rename, so an abort between the creation
    (which truncates) and the completion of the copy can leave an empty or
    partial output file visible. -/
theorem c10_amended (g : Generator) (genRes : String → Option String) (v : String)
    (hv : genRes v = none) :
    (generateOps g genRes).all (fun op => !FSOp.isRename op) = true ∧
    ∀ k : Nat, replayOps ((generateOps g genRes).take k) emptyFS
      (joinPath g.outputDir (outputFileName g v)) = none := by
  refine ⟨generateOps_norename g genRes, ?_⟩
  intro k
  have huntouch := generateOps_error_untouched g genRes v hv
  exact replay_untouched _ _
    (fun op hm => huntouch op (List.take_subset k _ hm)) emptyFS

/-- Witness for c10_amended at a concrete failing generation. -/
theorem c10_amended_witness :
    replayOps ((generateOps c9Gen (fun _ => none)).take 2) emptyFS
      (joinPath c9Gen.outputDir (outputFileName c9Gen "v1")) = none :=
  (c10_amended c9Gen (fun _ => none) "v1" rfl).2 2

end Atgen
